import Mathlib

set_option maxRecDepth 100000

/-!
Shallow embedding of the LychrelFinder core (src/src/lychrel.rs,
src/src/thread_cache.rs, src/src/seed_generator.rs, src/src/record_hunt.rs,
src/src/io_utils.rs) and proofs about the specified properties.

`BigUint` values are modelled as `Nat`.  Decimal-string manipulation in the
Rust code (`to_string`, `chars().rev()`, `parse`) is modelled through the
little-endian digit list of a number.
-/

/-- Little-endian decimal digits of `n`, with explicit fuel so the recursion is
structural.  `toDigitsAux fuel n` stops as soon as `n = 0`; fuel `n` always
suffices because `n / 10 < n` for `n ≠ 0`. -/
def toDigitsAux : Nat → Nat → List Nat
  | 0, _ => []
  | fuel + 1, n => if n = 0 then [] else n % 10 :: toDigitsAux fuel (n / 10)

/-- Little-endian decimal digits of `n` (empty for `0`), the digit list
underlying `BigUint::to_string` in the Rust source. -/
def toDigits (n : Nat) : List Nat :=
  toDigitsAux n n

/-- Value of a little-endian decimal digit list. -/
def fromDigits : List Nat → Nat
  | [] => 0
  | d :: ds => d + 10 * fromDigits ds

/-- Embedding of `reverse_number` (src/src/lychrel.rs): the Rust code renders
`n` to its decimal string, reverses the characters and parses the result, which
drops the leading zeros created by the reversal.  On digit lists this is
exactly reading the little-endian digits of `n` as a big-endian numeral. -/
def reverse_number (n : Nat) : Nat :=
  fromDigits (toDigits n).reverse

/-- Embedding of `is_palindrome` (src/src/lychrel.rs): the decimal string of
`n` equals its reverse, i.e. the digit list of `n` is a palindrome. -/
def is_palindrome (n : Nat) : Bool :=
  decide (toDigits n = (toDigits n).reverse)

/-- One reverse-and-add step `n ↦ n + reverse_number n`, the loop body of both
iteration functions in src/src/lychrel.rs. -/
def stepRA (n : Nat) : Nat :=
  n + reverse_number n

/-- The reverse-and-add orbit: `orbit start j` is the j-th element of the
sequence produced from `start`. -/
def orbit (start : Nat) : Nat → Nat
  | 0 => start
  | j + 1 => stepRA (orbit start j)

/-- Number of decimal digits of `n`, the value of `n.to_string().len()` in the
Rust source (the string of `0` is "0", of length one). -/
def decimalLength (n : Nat) : Nat :=
  if n = 0 then 1 else (toDigits n).length

/-- Bit length of `n`: the value of `BigUint::bits()` in the Rust source
(`0` for `0`, otherwise the position of the highest set bit plus one). -/
def bitsAux : Nat → Nat → Nat
  | 0, _ => 0
  | fuel + 1, n => if n = 0 then 0 else bitsAux fuel (n / 2) + 1

/-- Bit length of `n`, as returned by `BigUint::bits()`. -/
def bitLength (n : Nat) : Nat :=
  bitsAux n n

/-- `n` with the trailing zeros of its decimal representation removed.
Modelled from the spec: "n with its trailing zeros trimmed" (§8 invariant 1);
used to state claim C8. -/
def trimAux : Nat → Nat → Nat
  | 0, n => n
  | fuel + 1, n => if n ≠ 0 ∧ n % 10 = 0 then trimAux fuel (n / 10) else n

/-- `n` with its decimal trailing zeros trimmed (spec wording for C8). -/
def trimTrailingZeros (n : Nat) : Nat :=
  trimAux n n

/-- Embedding of `IterationResult` (src/src/lychrel.rs). -/
structure IterationResult where
  start_number : Nat
  is_palindrome : Bool
  iterations : Nat
  final_number : Option Nat
  is_potential_lychrel : Bool
deriving DecidableEq

/-- Loop of `lychrel_iteration` (src/src/lychrel.rs, lines 114-128): the fuel
argument is the remaining iteration budget `max_iterations - iteration_count`. -/
def lychrelLoop (start : Nat) : Nat → Nat → Nat → IterationResult
  | 0, current, count => ⟨start, false, count, some current, true⟩
  | remaining + 1, current, count =>
    let next := stepRA current
    if is_palindrome next then ⟨start, true, count + 1, some next, false⟩
    else lychrelLoop start remaining next (count + 1)

/-- Embedding of `lychrel_iteration` (src/src/lychrel.rs, lines 100-137). -/
def lychrel_iteration (start max_iterations : Nat) : IterationResult :=
  if is_palindrome start then ⟨start, true, 0, some start, false⟩
  else lychrelLoop start max_iterations start 0

/-- Embedding of `ThreadInfo` (src/src/thread_cache.rs). -/
structure ThreadInfo where
  seed_number : String
  iterations_from_seed : Nat
  max_iterations_tested : Nat
  final_digits : Nat
  reached_palindrome : Bool
  palindrome_at_iteration : Option Nat
deriving DecidableEq

/-- Association list standing in for `HashMap<BigUint, ThreadInfo>`; keys are
kept distinct by the insert operation below. -/
abbrev CacheMap := List (Nat × ThreadInfo)

/-- `HashMap::insert`: replace the entry of an existing key in place,
otherwise append the new binding. -/
def mapInsert : CacheMap → Nat → ThreadInfo → CacheMap
  | [], k, v => [(k, v)]
  | (k', v') :: rest, k, v =>
    if k' = k then (k, v) :: rest else (k', v') :: mapInsert rest k v

/-- `HashMap::get`. -/
def mapLookup : CacheMap → Nat → Option ThreadInfo
  | [], _ => none
  | (k', v') :: rest, k => if k' = k then some v' else mapLookup rest k

/-- Embedding of `ThreadCache` (src/src/thread_cache.rs): the local plane
`known_values`, the optional shared snapshot plane, the size bound and the
hit/miss counters. -/
structure ThreadCache where
  known_values : CacheMap
  snapshot : Option CacheMap
  max_cache_size : Nat
  hits : Nat
  misses : Nat
deriving DecidableEq

/-- `ThreadCache::new`. -/
def ThreadCache.new (max_size : Nat) : ThreadCache :=
  ⟨[], none, max_size, 0, 0⟩

/-- `ThreadCache::check` (src/src/thread_cache.rs, lines 56-72): consult the
local plane, then the snapshot, bumping the hit or miss counter. -/
def ThreadCache.check (c : ThreadCache) (value : Nat) : Option ThreadInfo × ThreadCache :=
  match mapLookup c.known_values value with
  | some info => (some info, { c with hits := c.hits + 1 })
  | none =>
    match c.snapshot with
    | some snap =>
      match mapLookup snap value with
      | some info => (some info, { c with hits := c.hits + 1 })
      | none => (none, { c with misses := c.misses + 1 })
    | none => (none, { c with misses := c.misses + 1 })

/-- The lookup part of `ThreadCache::check`, without the counter updates. -/
def ThreadCache.lookupFull (c : ThreadCache) (value : Nat) : Option ThreadInfo :=
  match mapLookup c.known_values value with
  | some info => some info
  | none =>
    match c.snapshot with
    | some snap => mapLookup snap value
    | none => none

/-- Comparison used by `evict_if_needed`'s `sort_by_key`. -/
def mitLE (a b : Nat × ThreadInfo) : Prop :=
  a.2.max_iterations_tested ≤ b.2.max_iterations_tested

instance : DecidableRel mitLE := fun a b =>
  inferInstanceAs (Decidable (a.2.max_iterations_tested ≤ b.2.max_iterations_tested))

instance : IsTotal (Nat × ThreadInfo) mitLE :=
  ⟨fun a b => Nat.le_total a.2.max_iterations_tested b.2.max_iterations_tested⟩

instance : IsTrans (Nat × ThreadInfo) mitLE :=
  ⟨fun _ _ _ h h' => Nat.le_trans h h'⟩

/-- The entries of the local plane sorted by increasing
`max_iterations_tested` (`entries.sort_by_key` in the Rust source; the sort is
stable, tie order inherits the unspecified map iteration order, which the
association list order stands in for). -/
def sortByMit (l : CacheMap) : CacheMap :=
  l.insertionSort mitLE

/-- The keys removed by one eviction pass: the keys of the first
`(max_cache_size / 10).max(1)` entries in the sorted order. -/
def evictKeys (c : ThreadCache) : List Nat :=
  ((sortByMit c.known_values).take (max (c.max_cache_size / 10) 1)).map Prod.fst

/-- Embedding of `ThreadCache::evict_if_needed` (src/src/thread_cache.rs,
lines 134-152): when the local plane exceeds the bound, remove the
`(max_cache_size / 10).max(1)` entries with the lowest
`max_iterations_tested` (one single pass). -/
def ThreadCache.evict_if_needed (c : ThreadCache) : ThreadCache :=
  if c.known_values.length > c.max_cache_size then
    { c with known_values :=
        c.known_values.filter (fun kv => decide (kv.1 ∉ evictKeys c)) }
  else c

/-- The per-position entries written by `add_thread`: position `idx` of the
path gets `iterations_from_seed + idx`. -/
def addThreadEntries (info : ThreadInfo) : CacheMap → List Nat → Nat → CacheMap
  | m, [], _ => m
  | m, p :: ps, idx =>
    addThreadEntries info
      (mapInsert m p { info with iterations_from_seed := info.iterations_from_seed + idx })
      ps (idx + 1)

/-- Embedding of `ThreadCache::add_thread` (src/src/thread_cache.rs, lines
104-124): cache the first `100.min(path.len())` values of the path, then run
eviction. -/
def ThreadCache.add_thread (c : ThreadCache) (path : List Nat) (info : ThreadInfo) : ThreadCache :=
  let cache_limit := min 100 path.length
  ThreadCache.evict_if_needed
    { c with known_values := addThreadEntries info c.known_values (path.take cache_limit) 0 }

/-- `ThreadCache::should_cache`: only threads with at least 50 iterations. -/
def ThreadCache.should_cache (_ : ThreadCache) (iterations : Nat) : Bool :=
  decide (50 ≤ iterations)

/-- One step of the value-merging loop of `ThreadCache::merge`
(src/src/thread_cache.rs, lines 226-235): an entry of `other` replaces the
receiver's entry only when it has strictly more iterations tested. -/
def mergeStep (a : CacheMap) (k : Nat) (info : ThreadInfo) : CacheMap :=
  match mapLookup a k with
  | some existing =>
    if info.max_iterations_tested > existing.max_iterations_tested then
      mapInsert a k info
    else a
  | none => mapInsert a k info

/-- The value-merging loop of `ThreadCache::merge` (src/src/thread_cache.rs,
lines 226-235). -/
def mergeMap : CacheMap → CacheMap → CacheMap
  | a, [] => a
  | a, (k, info) :: rest => mergeMap (mergeStep a k info) rest

/-- Embedding of `ThreadCache::merge` (src/src/thread_cache.rs, lines
220-238): counters add, values merge under the dominance rule, then eviction
runs. -/
def ThreadCache.merge (c other : ThreadCache) : ThreadCache :=
  ThreadCache.evict_if_needed
    { c with
      hits := c.hits + other.hits
      misses := c.misses + other.misses
      known_values := mergeMap c.known_values other.known_values }

/-- Embedding of `ThreadCache::take_snapshot` (src/src/thread_cache.rs, lines
242-247): move the local plane into the snapshot plane and return the shared
view. -/
def ThreadCache.take_snapshot (c : ThreadCache) : ThreadCache × CacheMap :=
  ({ c with known_values := [], snapshot := some c.known_values }, c.known_values)

/-- The JSON map written by `ThreadCache::save_to_file` (src/src/thread_cache.rs,
lines 191-199): the local plane with keys rendered as decimal strings. -/
def ThreadCache.save_map (c : ThreadCache) : List (String × ThreadInfo) :=
  c.known_values.map (fun kv => (Nat.repr kv.1, kv.2))

/-- Loop of `lychrel_iteration_with_cache` (src/src/lychrel.rs, lines
186-237 and the tail at 239-258): fuel is the remaining iteration budget; the
cache is threaded through because `check` updates the hit/miss counters and
termination may call `add_thread`. -/
def lychrelCacheLoop (start : Nat) :
    Nat → Nat → Nat → List Nat → ThreadCache → IterationResult × ThreadCache
  | 0, current, count, path, cache =>
    let cache' :=
      if cache.should_cache count then
        cache.add_thread path
          ⟨Nat.repr start, 0, count, decimalLength current, false, none⟩
      else cache
    (⟨start, false, count, some current, true⟩, cache')
  | remaining + 1, current, count, path, cache =>
    match cache.check current with
    | (some thread_info, cache') =>
      let total :=
        if thread_info.reached_palindrome then
          count + thread_info.palindrome_at_iteration.getD thread_info.max_iterations_tested
        else
          count + thread_info.max_iterations_tested
      (⟨start, thread_info.reached_palindrome, total, none, !thread_info.reached_palindrome⟩,
        cache')
    | (none, cache') =>
      let next := stepRA current
      let path' := path ++ [next]
      if is_palindrome next then
        let cache'' :=
          if cache'.should_cache (count + 1) then
            cache'.add_thread path'
              ⟨Nat.repr start, 0, count + 1, decimalLength next, true, some (count + 1)⟩
          else cache'
        (⟨start, true, count + 1, some next, false⟩, cache'')
      else lychrelCacheLoop start remaining next (count + 1) path' cache'

/-- Embedding of `lychrel_iteration_with_cache` (src/src/lychrel.rs, lines
166-259). -/
def lychrel_iteration_with_cache (start max_iterations : Nat) (cache : ThreadCache) :
    IterationResult × ThreadCache :=
  if is_palindrome start then (⟨start, true, 0, some start, false⟩, cache)
  else lychrelCacheLoop start max_iterations start 0 [] cache

/-- Embedding of `SeedGenerator::is_potential_seed` (src/src/seed_generator.rs,
lines 51-63): reject exactly when the reversal is strictly smaller. -/
def is_potential_seed (n : Nat) : Bool :=
  !decide (reverse_number n < n)

/-- Embedding of the `SeedGenerator` state (src/src/seed_generator.rs); the
mode dispatch is a function argument of the pull loop below. -/
structure SeedGenerator where
  current : Nat
  max : Nat
  digits : Nat
  skip_count : Nat
  generated_count : Nat
deriving DecidableEq

/-- `SeedGenerator::generate_sequential` (also `generate_from_pattern`). -/
def generate_sequential (s : SeedGenerator) : Nat × SeedGenerator :=
  (s.current, { s with current := s.current + 1 })

/-- The candidate loop of `Iterator::next` for `SeedGenerator`
(src/src/seed_generator.rs, lines 130-150), generic in the per-mode candidate
producer `gen`; the fuel bounds the number of loop turns. -/
def genLoop (gen : SeedGenerator → Nat × SeedGenerator) :
    Nat → SeedGenerator → Option (Nat × SeedGenerator)
  | 0, _ => none
  | fuel + 1, s =>
    if (gen s).1 ≥ (gen s).2.max then none
    else if is_potential_seed (gen s).1 then
      some ((gen s).1, { (gen s).2 with generated_count := (gen s).2.generated_count + 1 })
    else genLoop gen fuel { (gen s).2 with skip_count := (gen s).2.skip_count + 1 }

/-- `Iterator::next` for the `Sequential` mode (src/src/seed_generator.rs,
lines 125-151): fuel `max - current` is exactly enough for the sequential
producer to either find an admitted candidate or run off the range. -/
def SeedGenerator.next_seq (s : SeedGenerator) : Option (Nat × SeedGenerator) :=
  if s.current ≥ s.max then none
  else genLoop generate_sequential (s.max - s.current) s

/-- Embedding of `GeneratorMode` (src/src/seed_generator.rs). -/
inductive GeneratorMode where
  | Sequential
  | SmartRandom
  | PatternBased
deriving DecidableEq

/-- Embedding of `HuntConfig` (src/src/record_hunt.rs). -/
structure HuntConfig where
  min_digits : Nat
  max_digits : Option Nat
  target_iterations : Nat
  max_iterations : Nat
  target_final_digits : Nat
  cache_size : Nat
  generator_mode : GeneratorMode
  checkpoint_interval : Nat
  checkpoint_file : String
  warmup : Bool
deriving DecidableEq

/-- Embedding of `ProcessResult` (src/src/record_hunt.rs). -/
structure ProcessResult where
  number : String
  iterations : Nat
  final_digits : Nat
  is_record : Bool
  is_promising : Bool
deriving DecidableEq

/-- Embedding of `process_candidate` (src/src/record_hunt.rs, lines 560-618):
quick filter on 50 iterations (bit growth, then palindrome), then the full
cache-assisted run and the record / promising predicates. -/
def process_candidate (candidate : Nat) (cache : ThreadCache) (config : HuntConfig) :
    Option ProcessResult × ThreadCache :=
  if ((((lychrel_iteration candidate 50).final_number.map bitLength).getD 0 : Int)
      - (bitLength candidate : Int) < 66) then (none, cache)
  else if (lychrel_iteration candidate 50).is_palindrome then (none, cache)
  else
    (some ⟨Nat.repr candidate,
        ((lychrel_iteration_with_cache candidate config.max_iterations cache).1).iterations,
        ((((lychrel_iteration_with_cache candidate config.max_iterations
            cache).1).final_number.map decimalLength).getD 0),
        ((lychrel_iteration_with_cache candidate config.max_iterations cache).1).is_palindrome
          && decide (config.target_iterations ≤
              ((lychrel_iteration_with_cache candidate config.max_iterations cache).1).iterations)
          && decide (((lychrel_iteration_with_cache candidate config.max_iterations
              cache).1).iterations ≤ config.max_iterations)
          && decide (config.target_final_digits ≤
              ((((lychrel_iteration_with_cache candidate config.max_iterations
                  cache).1).final_number.map decimalLength).getD 0)),
        ((lychrel_iteration_with_cache candidate config.max_iterations cache).1).is_palindrome
          && decide (200 ≤
              ((lychrel_iteration_with_cache candidate config.max_iterations
                cache).1).iterations)⟩,
      (lychrel_iteration_with_cache candidate config.max_iterations cache).2)

/-- Value of a decimal digit character. -/
def digitVal (ch : Char) : Option Nat :=
  if '0' ≤ ch ∧ ch ≤ '9' then some (ch.toNat - 48) else none

/-- Big-endian accumulation of decimal digits. -/
def parseDecimalAux : Nat → List Char → Option Nat
  | acc, [] => some acc
  | acc, c :: cs =>
    match digitVal c with
    | some d => parseDecimalAux (acc * 10 + d) cs
    | none => none

/-- Model of `str::parse::<BigUint>()` on decimal numerals: succeeds exactly
on non-empty all-digit strings. -/
def parseDecimal (s : String) : Option Nat :=
  if s.data = [] then none else parseDecimalAux 0 s.data

/-- The contents of the cache file seen by `ThreadCache::load_from_file`,
abstracting the filesystem and the serde-JSON layer (src/src/io_utils.rs,
lines 15-20): the file is absent, or it is not a JSON map from strings to
`ThreadInfo` records, or it is such a map. -/
inductive CacheFile where
  | missing : CacheFile
  | malformed : CacheFile
  | wellFormed : List (String × ThreadInfo) → CacheFile

/-- Embedding of `ThreadCache::load_from_file` (src/src/thread_cache.rs,
lines 202-217): absent or unparsable files propagate an error; otherwise each
string key is parsed with `parse::<BigUint>().unwrap_or_default()`, so keys
that are not decimal numerals silently become `0`. -/
def ThreadCache.load_from_file (f : CacheFile) (max_size : Nat) : Option ThreadCache :=
  match f with
  | .missing => none
  | .malformed => none
  | .wellFormed entries =>
    some
      { known_values :=
          entries.foldl (fun m kv => mapInsert m ((parseDecimal kv.1).getD 0) kv.2) []
        snapshot := none
        max_cache_size := max_size
        hits := 0
        misses := 0 }

/-! ### Helper lemmas about the association-list map -/

theorem mapLookup_mem {m : CacheMap} {k : Nat} {v : ThreadInfo}
    (h : mapLookup m k = some v) : (k, v) ∈ m := by
  induction m with
  | nil => simp [mapLookup] at h
  | cons kv rest ih =>
    obtain ⟨k', v'⟩ := kv
    by_cases hk : k' = k
    · subst hk
      simp [mapLookup] at h
      simp [h]
    · simp [mapLookup, hk] at h
      exact List.mem_cons_of_mem _ (ih h)

theorem mapLookup_insert_self (m : CacheMap) (k : Nat) (v : ThreadInfo) :
    mapLookup (mapInsert m k v) k = some v := by
  induction m with
  | nil => simp [mapInsert, mapLookup]
  | cons kv rest ih =>
    obtain ⟨k', v'⟩ := kv
    by_cases hk : k' = k
    · subst hk
      simp [mapInsert, mapLookup]
    · simp [mapInsert, mapLookup, hk, ih]

theorem mapLookup_insert_ne (m : CacheMap) (k k' : Nat) (v : ThreadInfo) (h : k' ≠ k) :
    mapLookup (mapInsert m k v) k' = mapLookup m k' := by
  have hkk : k ≠ k' := Ne.symm h
  induction m with
  | nil => simp [mapInsert, mapLookup, hkk]
  | cons kv rest ih =>
    obtain ⟨k0, v0⟩ := kv
    by_cases hk : k0 = k
    · subst hk
      simp [mapInsert, mapLookup, hkk]
    · simp [mapInsert, mapLookup, hk, ih]

/-! ### C3: the seed filter -/

/-- Claim C3.  The seed filter `is_potential_seed` admits `n` iff
`reverse_number n ≥ n`; palindromes are always admitted; and every candidate
yielded by the generator's filtered pull loop (`genLoop`, for any mode's
candidate producer) satisfies `reverse_number n ≥ n`, hence so does
`SeedGenerator.next_seq`. -/
theorem seed_filter_admits_iff :
    (∀ n : Nat, is_potential_seed n = true ↔ n ≤ reverse_number n)
      ∧ (∀ n : Nat, reverse_number n = n → is_potential_seed n = true)
      ∧ (∀ (gen : SeedGenerator → Nat × SeedGenerator) (fuel : Nat) (s : SeedGenerator)
          (n : Nat) (s' : SeedGenerator),
          genLoop gen fuel s = some (n, s') → n ≤ reverse_number n) := by
  have base : ∀ n : Nat, is_potential_seed n = true ↔ n ≤ reverse_number n := by
    intro n
    simp [is_potential_seed, Nat.not_lt]
  refine ⟨base, ?_, ?_⟩
  · intro n h
    exact (base n).mpr (Nat.le_of_eq h.symm)
  · intro gen fuel
    induction fuel with
    | zero => intro s n s' h; simp [genLoop] at h
    | succ fuel ih =>
      intro s n s' h
      rw [genLoop] at h
      by_cases hmax : (gen s).1 ≥ (gen s).2.max
      · rw [if_pos hmax] at h
        exact absurd h (by simp)
      · rw [if_neg hmax] at h
        by_cases hpot : is_potential_seed (gen s).1 = true
        · rw [if_pos hpot] at h
          have hc : (gen s).1 = n := by
            simpa using congrArg (fun o => o.map Prod.fst) h
          exact hc ▸ (base _).mp hpot
        · rw [if_neg hpot] at h
          exact ih _ n s' h

/-- Witness for C3 at concrete inputs: 12345 is admitted because its reverse
54321 dominates it; the palindrome 19991 is admitted; and the sequential pull
starting at 100 yields 101, which satisfies the filter inequality. -/
theorem seed_filter_admits_iff_witness :
    is_potential_seed 12345 = true ∧ is_potential_seed 19991 = true
      ∧ (101 : Nat) ≤ reverse_number 101 := by
  refine ⟨(seed_filter_admits_iff.1 12345).mpr (by decide),
    seed_filter_admits_iff.2.1 19991 (by decide),
    seed_filter_admits_iff.2.2 generate_sequential 900 ⟨100, 1000, 3, 0, 0⟩ 101
      ⟨102, 1000, 3, 1, 1⟩ (by decide)⟩

/-! ### C7: the quick filter of process_candidate -/

/-- Claim C7.  `process_candidate` returns no result exactly when the
50-iteration probe ends in a palindrome or its bit growth is below 66 bits;
in all other cases the full cache-assisted iteration is run and its result is
returned. -/
theorem process_candidate_none_iff :
    ∀ (candidate : Nat) (cache : ThreadCache) (config : HuntConfig),
      (process_candidate candidate cache config).1 = none ↔
        ((lychrel_iteration candidate 50).is_palindrome = true
          ∨ ((((lychrel_iteration candidate 50).final_number.map bitLength).getD 0 : Int)
              - (bitLength candidate : Int) < 66)) := by
  intro candidate cache config
  unfold process_candidate
  by_cases hg : ((((lychrel_iteration candidate 50).final_number.map bitLength).getD 0 : Int)
      - (bitLength candidate : Int) < 66)
  · simp [hg]
  · by_cases hp : (lychrel_iteration candidate 50).is_palindrome
    · simp [hg, hp]
    · simp [hg, hp]

/-! ### C10: cache-terminated orbits are never records -/

/-- Claim C10.  When the full cache-assisted run terminates through a cache
hit (`final_number = none`), `process_candidate` reports `final_digits = 0`,
so with any `target_final_digits ≥ 1` the produced result is not a record. -/
theorem cache_hit_result_not_record :
    ∀ (candidate : Nat) (cache : ThreadCache) (config : HuntConfig) (r : ProcessResult),
      1 ≤ config.target_final_digits →
      ((lychrel_iteration_with_cache candidate config.max_iterations cache).1).final_number
        = none →
      (process_candidate candidate cache config).1 = some r →
      r.is_record = false ∧ r.final_digits = 0 := by
  intro candidate cache config r htarget hnone hsome
  unfold process_candidate at hsome
  split at hsome
  · simp at hsome
  · split at hsome
    · simp at hsome
    · rw [hnone] at hsome
      simp only [Option.map_none', Option.getD_none] at hsome
      have hd : decide (config.target_final_digits ≤ 0) = false := by
        rw [decide_eq_false_iff_not]
        omega
      rw [hd] at hsome
      have hr := (Option.some.injEq _ _).mp hsome
      rw [← hr]
      simp

/-- A cache holding a single entry for 196 itself, so that a full cached run
on 196 terminates through a cache hit at its very first lookup. -/
def cacheHit196 : ThreadCache :=
  (ThreadCache.new 1000).add_thread [196] ⟨"196", 0, 300, 50, false, none⟩

/-- The default hunt configuration (src/src/record_hunt.rs, `Default for
HuntConfig`). -/
def defaultConfig : HuntConfig :=
  ⟨23, none, 289, 300, 142, 1000000, GeneratorMode.Sequential, 1000000,
    "hunt_checkpoint.json", false⟩

/-- Witness for C10: with the default targets, the candidate 196 passes the
quick filter, terminates through a cache hit (no final number), and the
produced result has `is_record = false` and `final_digits = 0`. -/
theorem cache_hit_result_not_record_witness :
    (⟨"196", 300, 0, false, false⟩ : ProcessResult).is_record = false
      ∧ (⟨"196", 300, 0, false, false⟩ : ProcessResult).final_digits = 0 :=
  cache_hit_result_not_record 196 cacheHit196 defaultConfig
    ⟨"196", 300, 0, false, false⟩ (by decide) (by decide) (by decide)

/-! ### C9: loading a cache file -/

/-- Sample `ThreadInfo` record (the running example of the Rust doc tests). -/
def sampleInfo : ThreadInfo :=
  ⟨"196", 0, 100, 50, false, none⟩

/-- Counterexample to C9 as stated: the well-formed JSON map whose single key
"abc" is not a decimal numeral does not parse as the documented map from
decimal-string keys to `ThreadInfo` records, yet `load_from_file` succeeds
(the key is silently replaced by `BigUint::default()`, i.e. 0). -/
theorem load_accepts_non_decimal_key :
    ThreadCache.load_from_file (CacheFile.wellFormed [("abc", sampleInfo)]) 10 ≠ none
      ∧ parseDecimal "abc" = none
      ∧ (ThreadCache.load_from_file (CacheFile.wellFormed [("abc", sampleInfo)]) 10).map
          (fun c => mapLookup c.known_values 0) = some (some sampleInfo) := by
  refine ⟨by decide, by decide, by decide⟩

/-- Claim C9, amended: `load_from_file` fails exactly when the file is absent
or its contents do not parse as a JSON map from string keys to `ThreadInfo`
records; keys that are not decimal numerals do not cause an error but are
silently mapped to 0 by `parse::<BigUint>().unwrap_or_default()`. -/
theorem load_error_iff :
    ∀ (f : CacheFile) (max_size : Nat),
      ThreadCache.load_from_file f max_size = none
        ↔ (f = CacheFile.missing ∨ f = CacheFile.malformed) := by
  intro f max_size
  cases f with
  | missing => simp [ThreadCache.load_from_file]
  | malformed => simp [ThreadCache.load_from_file]
  | wellFormed entries => simp [ThreadCache.load_from_file]

/-! ### C6: what the cache file contains -/

/-- A cache whose only entry lives in the snapshot plane: 196 was added to
the local plane and `take_snapshot` then moved the local plane into the
snapshot. -/
def snapshotOnlyCache : ThreadCache :=
  ((ThreadCache.new 1000).add_thread [196] sampleInfo).take_snapshot.1

/-- Counterexample to C6 as stated: after `take_snapshot`, the entry for 196
is still reachable by lookup (`check` reports a hit), but the serialized map
written by `save_to_file` is empty — the snapshot plane is not saved. -/
theorem save_omits_snapshot_plane :
    ((snapshotOnlyCache.check 196).1).isSome = true
      ∧ snapshotOnlyCache.save_map = [] := by
  refine ⟨by decide, by decide⟩

/-- Claim C6, amended: the serialized map contains exactly the local plane —
every entry reachable by lookup in the local plane appears, keyed by its
decimal string; entries reachable only through the snapshot plane are
omitted (see the counterexample). -/
theorem save_map_is_local_plane :
    ∀ (c : ThreadCache) (k : Nat) (info : ThreadInfo),
      mapLookup c.known_values k = some info → (Nat.repr k, info) ∈ c.save_map := by
  intro c k info h
  exact List.mem_map_of_mem _ (mapLookup_mem h)

/-- Witness for C6 (amended) at a concrete cache with one local entry. -/
theorem save_map_is_local_plane_witness :
    ("196", sampleInfo) ∈ ((ThreadCache.new 1000).add_thread [196] sampleInfo).save_map := by
  have h := save_map_is_local_plane ((ThreadCache.new 1000).add_thread [196] sampleInfo)
    196 sampleInfo (by decide)
  simpa using h

/-! ### C2: the cached iteration refines the plain iteration on an empty cache -/

theorem check_of_empty (cache : ThreadCache) (v : Nat)
    (h1 : cache.known_values = []) (h2 : cache.snapshot = none) :
    cache.check v = (none, { cache with misses := cache.misses + 1 }) := by
  unfold ThreadCache.check
  rw [h1, h2]
  simp [mapLookup]

theorem cacheLoop_of_empty (start : Nat) :
    ∀ (remaining current count : Nat) (path : List Nat) (cache : ThreadCache),
      cache.known_values = [] → cache.snapshot = none →
      (lychrelCacheLoop start remaining current count path cache).1
        = lychrelLoop start remaining current count := by
  intro remaining
  induction remaining with
  | zero =>
    intro current count path cache h1 h2
    simp [lychrelCacheLoop, lychrelLoop]
  | succ remaining ih =>
    intro current count path cache h1 h2
    rw [lychrelCacheLoop, lychrelLoop]
    rw [check_of_empty cache current h1 h2]
    by_cases hp : is_palindrome (stepRA current) = true
    · simp [hp]
    · simp only [Bool.not_eq_true] at hp
      simp only [hp, Bool.false_eq_true, if_false]
      exact ih (stepRA current) (count + 1) (path ++ [stepRA current])
        { cache with misses := cache.misses + 1 } h1 h2

/-- Claim C2.  Against a freshly created empty cache, the cache-assisted
iteration returns the same palindrome flag and the same iteration count as
the plain iteration, for every start value and bound (in fact the whole
`IterationResult` coincides). -/
theorem iterate_with_empty_cache_agrees :
    ∀ (n k max_size : Nat),
      ((lychrel_iteration_with_cache n k (ThreadCache.new max_size)).1).is_palindrome
          = (lychrel_iteration n k).is_palindrome
        ∧ ((lychrel_iteration_with_cache n k (ThreadCache.new max_size)).1).iterations
          = (lychrel_iteration n k).iterations := by
  intro n k max_size
  have h : (lychrel_iteration_with_cache n k (ThreadCache.new max_size)).1
      = lychrel_iteration n k := by
    unfold lychrel_iteration_with_cache lychrel_iteration
    by_cases hp : is_palindrome n = true
    · simp [hp]
    · simp only [Bool.not_eq_true] at hp
      simp only [hp, Bool.false_eq_true, if_false]
      exact cacheLoop_of_empty n k n 0 [] (ThreadCache.new max_size) rfl rfl
  rw [h]
  exact ⟨rfl, rfl⟩

/-! ### C8: double reversal trims trailing zeros -/

theorem toDigitsAux_eq_digits : ∀ (fuel n : Nat), n ≤ fuel → toDigitsAux fuel n = Nat.digits 10 n := by
  intro fuel
  induction fuel with
  | zero =>
    intro n h
    have h0 : n = 0 := Nat.le_zero.mp h
    subst h0
    simp [toDigitsAux]
  | succ fuel ih =>
    intro n h
    by_cases h0 : n = 0
    · subst h0
      simp [toDigitsAux]
    · rw [toDigitsAux, if_neg h0]
      have hlt : n / 10 ≤ fuel := by
        have := Nat.div_lt_self (Nat.pos_of_ne_zero h0) (by norm_num : 1 < 10)
        omega
      rw [ih (n / 10) hlt]
      rw [Nat.digits_def' (by norm_num : (1 : Nat) < 10) (Nat.pos_of_ne_zero h0)]

theorem toDigits_eq_digits (n : Nat) : toDigits n = Nat.digits 10 n :=
  toDigitsAux_eq_digits n n (Nat.le_refl n)

theorem fromDigits_eq_ofDigits : ∀ l : List Nat, fromDigits l = Nat.ofDigits 10 l := by
  intro l
  induction l with
  | nil => simp [fromDigits, Nat.ofDigits_nil]
  | cons d ds ih => simp [fromDigits, Nat.ofDigits_cons, ih]

theorem reverse_number_eq (n : Nat) :
    reverse_number n = Nat.ofDigits 10 ((Nat.digits 10 n).reverse) := by
  rw [reverse_number, toDigits_eq_digits, fromDigits_eq_ofDigits]

theorem trimAux_fuel : ∀ (f1 f2 n : Nat), n ≤ f1 → n ≤ f2 → trimAux f1 n = trimAux f2 n := by
  intro f1
  induction f1 with
  | zero =>
    intro f2 n h1 _
    have h0 : n = 0 := Nat.le_zero.mp h1
    subst h0
    cases f2 with
    | zero => rfl
    | succ f2 => simp [trimAux]
  | succ f1 ih =>
    intro f2 n h1 h2
    by_cases hc : n ≠ 0 ∧ n % 10 = 0
    · have hpos : 0 < n := Nat.pos_of_ne_zero hc.1
      have hdiv : n / 10 < n := Nat.div_lt_self hpos (by norm_num)
      cases f2 with
      | zero => omega
      | succ f2 =>
        rw [trimAux, if_pos hc, trimAux, if_pos hc]
        exact ih f2 (n / 10) (by omega) (by omega)
    · cases f2 with
      | zero =>
        have h0 : n = 0 := Nat.le_zero.mp h2
        subst h0
        simp [trimAux]
      | succ f2 => rw [trimAux, if_neg hc, trimAux, if_neg hc]

theorem trim_def (n : Nat) :
    trimTrailingZeros n
      = if n ≠ 0 ∧ n % 10 = 0 then trimTrailingZeros (n / 10) else n := by
  by_cases hc : n ≠ 0 ∧ n % 10 = 0
  · rw [if_pos hc]
    have hpos : 0 < n := Nat.pos_of_ne_zero hc.1
    have hdiv : n / 10 < n := Nat.div_lt_self hpos (by norm_num)
    obtain ⟨m, hm⟩ : ∃ m, n = m + 1 := ⟨n - 1, by omega⟩
    subst hm
    show trimAux (m + 1) (m + 1) = trimTrailingZeros ((m + 1) / 10)
    rw [trimAux, if_pos hc]
    exact trimAux_fuel m ((m + 1) / 10) ((m + 1) / 10) (by omega) (Nat.le_refl _)
  · rw [if_neg hc]
    by_cases h0 : n = 0
    · subst h0
      rfl
    · obtain ⟨m, hm⟩ : ∃ m, n = m + 1 := ⟨n - 1, by omega⟩
      subst hm
      show trimAux (m + 1) (m + 1) = m + 1
      rw [trimAux, if_neg hc]

theorem trim_no_trailing (n : Nat) :
    trimTrailingZeros n = 0 ∨ trimTrailingZeros n % 10 ≠ 0 := by
  induction n using Nat.strong_induction_on with
  | _ n ih =>
    rw [trim_def]
    by_cases hc : n ≠ 0 ∧ n % 10 = 0
    · rw [if_pos hc]
      exact ih (n / 10) (Nat.div_lt_self (Nat.pos_of_ne_zero hc.1) (by norm_num))
    · rw [if_neg hc]
      by_cases h0 : n = 0
      · exact Or.inl h0
      · right
        intro hmod
        exact hc ⟨h0, hmod⟩

theorem reverse_ten_mul (n : Nat) (h : 0 < n) :
    reverse_number (10 * n) = reverse_number n := by
  rw [reverse_number_eq, reverse_number_eq]
  have hd : Nat.digits 10 (10 * n) = 0 :: Nat.digits 10 n := by
    rw [Nat.digits_def' (by norm_num : (1 : Nat) < 10) (by positivity)]
    congr 1
    · omega
    · congr 1
      omega
  rw [hd]
  rw [List.reverse_cons, Nat.ofDigits_append]
  simp [Nat.ofDigits_singleton]

theorem reverse_trim (n : Nat) :
    reverse_number (trimTrailingZeros n) = reverse_number n := by
  induction n using Nat.strong_induction_on with
  | _ n ih =>
    rw [trim_def]
    by_cases hc : n ≠ 0 ∧ n % 10 = 0
    · rw [if_pos hc]
      have hpos : 0 < n := Nat.pos_of_ne_zero hc.1
      have hdiv : n / 10 < n := Nat.div_lt_self hpos (by norm_num)
      have hsplit : n = 10 * (n / 10) := by omega
      have hq : 0 < n / 10 := by omega
      rw [ih (n / 10) hdiv]
      conv_rhs => rw [hsplit]
      rw [reverse_ten_mul (n / 10) hq]
    · rw [if_neg hc]

theorem reverse_reverse_of_mod (n : Nat) (h : n % 10 ≠ 0) :
    reverse_number (reverse_number n) = n := by
  have h0 : n ≠ 0 := by
    intro h0
    subst h0
    simp at h
  have hpos : 0 < n := Nat.pos_of_ne_zero h0
  rw [reverse_number_eq n]
  rw [reverse_number_eq]
  have hdig : Nat.digits 10 (Nat.ofDigits 10 (Nat.digits 10 n).reverse)
      = (Nat.digits 10 n).reverse := by
    apply Nat.digits_ofDigits 10 (by norm_num)
    · intro d hd
      exact Nat.digits_lt_base (by norm_num) (List.mem_reverse.mp hd)
    · intro hne
      have hcons : Nat.digits 10 n = n % 10 :: Nat.digits 10 (n / 10) :=
        Nat.digits_def' (by norm_num) hpos
      have hl : (Nat.digits 10 n).reverse.getLast? = some (n % 10) := by
        rw [List.getLast?_reverse, hcons]
        rfl
      have hl' : (Nat.digits 10 n).reverse.getLast? =
          some ((Nat.digits 10 n).reverse.getLast hne) :=
        List.getLast?_eq_getLast _ hne
      rw [hl'] at hl
      have := Option.some.inj hl
      rw [this]
      exact h
  rw [hdig, List.reverse_reverse, Nat.ofDigits_digits]

/-- Claim C8.  Double decimal reversal trims trailing zeros: for every `n`,
`reverse_number (reverse_number n)` equals `n` with the trailing zeros of its
decimal representation trimmed, and in particular equals `n` itself whenever
`n` has no trailing zeros (`¬ 10 ∣ n`). -/
theorem reverse_reverse_trims :
    ∀ n : Nat,
      reverse_number (reverse_number n) = trimTrailingZeros n
        ∧ (¬ 10 ∣ n → reverse_number (reverse_number n) = n) := by
  intro n
  have hmain : reverse_number (reverse_number n) = trimTrailingZeros n := by
    rw [← reverse_trim n]
    rcases trim_no_trailing n with h0 | hmod
    · rw [h0]
      decide
    · exact reverse_reverse_of_mod (trimTrailingZeros n) hmod
  refine ⟨hmain, ?_⟩
  intro hdvd
  rw [hmain, trim_def]
  rw [if_neg]
  intro hc
  exact hdvd (Nat.dvd_iff_mod_eq_zero.mpr hc.2)

/-- Witness for C8 at concrete inputs: 123 has no trailing zeros and is
recovered exactly; 1200 loses its two trailing zeros. -/
theorem reverse_reverse_trims_witness :
    reverse_number (reverse_number 123) = 123
      ∧ reverse_number (reverse_number 1200) = trimTrailingZeros 1200 :=
  ⟨(reverse_reverse_trims 123).2 (by decide), (reverse_reverse_trims 1200).1⟩

/-! ### C5: the merge contract -/

theorem evict_preserves_counters (c : ThreadCache) :
    (c.evict_if_needed).hits = c.hits ∧ (c.evict_if_needed).misses = c.misses
      ∧ (c.evict_if_needed).snapshot = c.snapshot
      ∧ (c.evict_if_needed).max_cache_size = c.max_cache_size := by
  unfold ThreadCache.evict_if_needed
  split <;> simp

theorem evict_of_le (c : ThreadCache) (h : c.known_values.length ≤ c.max_cache_size) :
    c.evict_if_needed = c := by
  unfold ThreadCache.evict_if_needed
  rw [if_neg (by omega)]

theorem mergeStep_some (a : CacheMap) (k : Nat) (e i0 : ThreadInfo)
    (h : mapLookup a k = some e) :
    mergeStep a k i0
      = if i0.max_iterations_tested > e.max_iterations_tested then mapInsert a k i0 else a := by
  unfold mergeStep
  rw [h]

theorem mergeStep_none (a : CacheMap) (k : Nat) (i0 : ThreadInfo)
    (h : mapLookup a k = none) :
    mergeStep a k i0 = mapInsert a k i0 := by
  unfold mergeStep
  rw [h]

theorem mergeStep_lookup_mono (a : CacheMap) (k0 : Nat) (i0 : ThreadInfo)
    (k : Nat) (e : ThreadInfo) (h : mapLookup a k = some e) :
    ∃ e', mapLookup (mergeStep a k0 i0) k = some e'
      ∧ e.max_iterations_tested ≤ e'.max_iterations_tested := by
  by_cases hk : k0 = k
  · subst hk
    rw [mergeStep_some a k0 e i0 h]
    by_cases hgt : i0.max_iterations_tested > e.max_iterations_tested
    · rw [if_pos hgt]
      exact ⟨i0, mapLookup_insert_self a k0 i0, Nat.le_of_lt hgt⟩
    · rw [if_neg hgt]
      exact ⟨e, h, Nat.le_refl _⟩
  · have hne : k ≠ k0 := fun hh => hk hh.symm
    cases hl : mapLookup a k0 with
    | none =>
      rw [mergeStep_none a k0 i0 hl, mapLookup_insert_ne a k0 k i0 hne]
      exact ⟨e, h, Nat.le_refl _⟩
    | some ex =>
      rw [mergeStep_some a k0 ex i0 hl]
      by_cases hgt : i0.max_iterations_tested > ex.max_iterations_tested
      · rw [if_pos hgt, mapLookup_insert_ne a k0 k i0 hne]
        exact ⟨e, h, Nat.le_refl _⟩
      · rw [if_neg hgt]
        exact ⟨e, h, Nat.le_refl _⟩

theorem mergeMap_mono :
    ∀ (bs a : CacheMap) (k : Nat) (e : ThreadInfo),
      mapLookup a k = some e →
      ∃ e', mapLookup (mergeMap a bs) k = some e'
        ∧ e.max_iterations_tested ≤ e'.max_iterations_tested := by
  intro bs
  induction bs with
  | nil => intro a k e h; exact ⟨e, h, Nat.le_refl _⟩
  | cons kv rest ih =>
    obtain ⟨k0, i0⟩ := kv
    intro a k e h
    rw [mergeMap]
    obtain ⟨e1, he1, hle1⟩ := mergeStep_lookup_mono a k0 i0 k e h
    obtain ⟨e', he', hle'⟩ := ih (mergeStep a k0 i0) k e1 he1
    exact ⟨e', he', Nat.le_trans hle1 hle'⟩

theorem mergeStep_lookup_self (a : CacheMap) (k0 : Nat) (i0 : ThreadInfo) :
    ∃ e, mapLookup (mergeStep a k0 i0) k0 = some e
      ∧ i0.max_iterations_tested ≤ e.max_iterations_tested := by
  cases hl : mapLookup a k0 with
  | none =>
    rw [mergeStep_none a k0 i0 hl]
    exact ⟨i0, mapLookup_insert_self a k0 i0, Nat.le_refl _⟩
  | some ex =>
    rw [mergeStep_some a k0 ex i0 hl]
    by_cases hgt : i0.max_iterations_tested > ex.max_iterations_tested
    · rw [if_pos hgt]
      exact ⟨i0, mapLookup_insert_self a k0 i0, Nat.le_refl _⟩
    · rw [if_neg hgt]
      exact ⟨ex, hl, Nat.le_of_not_lt hgt⟩

theorem mergeMap_dominates :
    ∀ (bs a : CacheMap) (k : Nat) (v : ThreadInfo),
      mapLookup bs k = some v →
      ∃ e, mapLookup (mergeMap a bs) k = some e
        ∧ v.max_iterations_tested ≤ e.max_iterations_tested := by
  intro bs
  induction bs with
  | nil => intro a k v h; simp [mapLookup] at h
  | cons kv rest ih =>
    obtain ⟨k0, i0⟩ := kv
    intro a k v h
    rw [mergeMap]
    by_cases hk : k0 = k
    · subst hk
      have hv : v = i0 := by
        simp [mapLookup] at h
        exact h.symm
      subst hv
      obtain ⟨e1, he1, hle1⟩ := mergeStep_lookup_self a k0 v
      obtain ⟨e', he', hle'⟩ := mergeMap_mono rest (mergeStep a k0 v) k0 e1 he1
      exact ⟨e', he', Nat.le_trans hle1 hle'⟩
    · have hrest : mapLookup rest k = some v := by
        simpa [mapLookup, hk] using h
      exact ih _ k v hrest

/-- Claim C5, amended.  After `merge(b)` into `a` the hit and miss counters
are always the sums of both caches' counters, and — provided the merged local
plane does not exceed `a`'s bound, so the post-merge eviction pass does not
fire — `a`'s local plane contains, for every key of `b`'s local plane, an
entry whose `max_iterations_tested` dominates `b`'s entry (on ties the
receiver's entry is kept).  Without that proviso the eviction pass that
`merge` runs at its end may drop such keys entirely (see the
counterexample). -/
theorem merge_counters_and_dominance :
    ∀ (a b : ThreadCache),
      (a.merge b).hits = a.hits + b.hits
        ∧ (a.merge b).misses = a.misses + b.misses
        ∧ ((mergeMap a.known_values b.known_values).length ≤ a.max_cache_size →
            ∀ (k : Nat) (v : ThreadInfo),
              mapLookup b.known_values k = some v →
              ∃ e, mapLookup (a.merge b).known_values k = some e
                ∧ v.max_iterations_tested ≤ e.max_iterations_tested) := by
  intro a b
  unfold ThreadCache.merge
  refine ⟨(evict_preserves_counters _).1, (evict_preserves_counters _).2.1, ?_⟩
  intro hlen k v hv
  rw [evict_of_le _ hlen]
  exact mergeMap_dominates b.known_values a.known_values k v hv

/-- A worker-style cache built through the public API: eleven single-value
threads with distinct keys and distinct iteration counts. -/
def addSingle (c : ThreadCache) (k mit : Nat) : ThreadCache :=
  c.add_thread [k] ⟨Nat.repr k, 0, mit, 20, false, none⟩

/-- Eleven entries (keys 0, 1000, …, 10000 with 50…60 iterations tested), as
in the Rust eviction test but one over a receiver capacity of 10. -/
def workerB : ThreadCache :=
  (List.range 11).foldl (fun c i => addSingle c (1000 * i) (50 + i)) (ThreadCache.new 1000)

/-- Counterexample to C5 as stated: merging `workerB` (11 entries) into an
empty cache with `max_cache_size = 10` triggers the post-merge eviction,
which removes the key 0 coming from `workerB`'s local plane — so after
`merge(b)` not every key of `b`'s local plane is present in the receiver. -/
theorem merge_can_drop_worker_entry :
    (mapLookup workerB.known_values 0).isSome = true
      ∧ mapLookup ((ThreadCache.new 10).merge workerB).known_values 0 = none := by
  refine ⟨by decide, by decide⟩

/-- Witness for the amended C5 on two one-entry caches for the same key. -/
theorem merge_counters_and_dominance_witness :
    ((addSingle (ThreadCache.new 100) 5 50).merge (addSingle (ThreadCache.new 100) 5 60)).hits
        = (addSingle (ThreadCache.new 100) 5 50).hits
          + (addSingle (ThreadCache.new 100) 5 60).hits
      ∧ ∃ e, mapLookup ((addSingle (ThreadCache.new 100) 5 50).merge
            (addSingle (ThreadCache.new 100) 5 60)).known_values 5 = some e
          ∧ (60 : Nat) ≤ e.max_iterations_tested := by
  have h := merge_counters_and_dominance (addSingle (ThreadCache.new 100) 5 50)
    (addSingle (ThreadCache.new 100) 5 60)
  refine ⟨h.1, ?_⟩
  exact h.2.2 (by decide) 5 ⟨Nat.repr 5, 0, 60, 20, false, none⟩ (by decide)

/-! ### C4: eviction -/

theorem countP_filter_split (c : ThreadCache) :
    ∀ m : CacheMap,
      m.countP (fun kv => decide (kv.1 ∈ evictKeys c))
          + (m.filter (fun kv => decide (kv.1 ∉ evictKeys c))).length
        = m.length := by
  intro m
  induction m with
  | nil => simp
  | cons kv rest ih =>
    simp only [decide_not] at ih ⊢
    by_cases hm : kv.1 ∈ evictKeys c <;>
      simp [List.countP_cons, List.filter_cons, hm] <;> omega

/-- Claim C4, amended.  When the local plane exceeds `max_cache_size`,
`evict_if_needed` performs a single pass removing exactly the
`(max_cache_size / 10).max(1)` entries with the lowest
`max_iterations_tested` (every removed entry is dominated by every surviving
entry), and it never touches the snapshot plane.  A single pass need not
bring the plane under the bound (see the counterexample). -/
theorem evict_single_decile_pass :
    ∀ c : ThreadCache,
      (c.known_values.map Prod.fst).Nodup →
      c.known_values.length > c.max_cache_size →
      (c.evict_if_needed).snapshot = c.snapshot
        ∧ (c.evict_if_needed).known_values.length
            = c.known_values.length - max (c.max_cache_size / 10) 1
        ∧ (∀ kv, kv ∈ c.known_values → kv.1 ∈ evictKeys c →
            ∀ kv', kv' ∈ (c.evict_if_needed).known_values →
              kv.2.max_iterations_tested ≤ kv'.2.max_iterations_tested) := by
  intro c hnd hover
  have hev : c.evict_if_needed
      = { c with known_values :=
            c.known_values.filter (fun kv => decide (kv.1 ∉ evictKeys c)) } := by
    unfold ThreadCache.evict_if_needed
    rw [if_pos hover]
  have hperm : List.Perm (sortByMit c.known_values) c.known_values :=
    List.perm_insertionSort mitLE c.known_values
  have hsorted : List.Pairwise mitLE (sortByMit c.known_values) :=
    List.sorted_insertionSort mitLE c.known_values
  have hkeys : ((sortByMit c.known_values).map Prod.fst).Nodup :=
    ((hperm.map Prod.fst).nodup_iff).mpr hnd
  have hsplit : (sortByMit c.known_values).take (max (c.max_cache_size / 10) 1)
      ++ (sortByMit c.known_values).drop (max (c.max_cache_size / 10) 1)
      = sortByMit c.known_values :=
    List.take_append_drop _ _
  have hdisj : List.Disjoint
      (((sortByMit c.known_values).take (max (c.max_cache_size / 10) 1)).map Prod.fst)
      (((sortByMit c.known_values).drop (max (c.max_cache_size / 10) 1)).map Prod.fst) := by
    have : ((sortByMit c.known_values).map Prod.fst).Nodup := hkeys
    rw [← hsplit, List.map_append] at this
    exact (List.nodup_append.mp this).2.2
  have hRtake : evictKeys c
      = ((sortByMit c.known_values).take (max (c.max_cache_size / 10) 1)).map Prod.fst := rfl
  have hd10 := Nat.div_le_self c.max_cache_size 10
  have hlen_srt : (sortByMit c.known_values).length = c.known_values.length := hperm.length_eq
  have ht_le : max (c.max_cache_size / 10) 1 ≤ (sortByMit c.known_values).length := by
    omega
  have hcount : c.known_values.countP (fun kv => decide (kv.1 ∈ evictKeys c))
      = max (c.max_cache_size / 10) 1 := by
    rw [← hperm.countP_eq]
    conv_lhs => rw [← hsplit]
    rw [List.countP_append]
    have h1 : ((sortByMit c.known_values).take
          (max (c.max_cache_size / 10) 1)).countP (fun kv => decide (kv.1 ∈ evictKeys c))
        = ((sortByMit c.known_values).take (max (c.max_cache_size / 10) 1)).length := by
      rw [List.countP_eq_length]
      intro kv hkv
      rw [decide_eq_true_eq, hRtake]
      exact List.mem_map_of_mem Prod.fst hkv
    have h2 : ((sortByMit c.known_values).drop
          (max (c.max_cache_size / 10) 1)).countP (fun kv => decide (kv.1 ∈ evictKeys c))
        = 0 := by
      rw [List.countP_eq_zero]
      intro kv hkv hmem
      rw [decide_eq_true_eq, hRtake] at hmem
      exact hdisj hmem (List.mem_map_of_mem Prod.fst hkv)
    rw [h1, h2, List.length_take]
    omega
  refine ⟨by rw [hev], ?_, ?_⟩
  · rw [hev]
    have hsum := countP_filter_split c c.known_values
    simp only []
    omega
  · intro kv hkvmem hkvR kv' hkv'mem
    rw [hev] at hkv'mem
    simp only [List.mem_filter, decide_eq_true_eq] at hkv'mem
    obtain ⟨hkv'l, hkv'notR⟩ := hkv'mem
    have hkvs : kv ∈ sortByMit c.known_values := hperm.mem_iff.mpr hkvmem
    have hkv's : kv' ∈ sortByMit c.known_values := hperm.mem_iff.mpr hkv'l
    rw [← hsplit] at hkvs hkv's
    rcases List.mem_append.mp hkvs with htake | hdrop
    · rcases List.mem_append.mp hkv's with htake' | hdrop'
      · exact absurd (hRtake ▸ List.mem_map_of_mem Prod.fst htake') hkv'notR
      · have hpw := List.pairwise_append.mp (by rw [hsplit]; exact hsorted)
        exact hpw.2.2 kv htake kv' hdrop'
    · exact absurd (List.mem_map_of_mem Prod.fst hdrop)
        (fun hh => hdisj (hRtake ▸ hkvR) hh)

/-- A cache state whose local plane holds 30 entries against a bound of 10;
`merge` produces exactly such states, since it inserts every worker entry
before running a single eviction pass. -/
def wideCache : ThreadCache :=
  ⟨(List.range 30).map (fun i => (i, ⟨Nat.repr i, 0, 50 + i, 20, false, none⟩)),
    none, 10, 0, 0⟩

/-- Counterexample to C4 as stated: one eviction pass on a 30-entry local
plane with bound 10 removes only `max (10 / 10) 1 = 1` entry, leaving 29
entries — eviction does not repeat "until the local plane's size is under
the bound". -/
theorem evict_not_until_under_bound :
    wideCache.known_values.length > wideCache.max_cache_size
      ∧ (wideCache.evict_if_needed).known_values.length > wideCache.max_cache_size := by
  refine ⟨by decide, by decide⟩

/-- Witness for the amended C4 on a two-entry cache over a bound of one. -/
theorem evict_single_decile_pass_witness :
    ((⟨[(1, ⟨"1", 0, 50, 20, false, none⟩), (2, ⟨"2", 0, 60, 20, false, none⟩)],
        some [(9, ⟨"196", 0, 100, 50, false, none⟩)], 1, 3, 4⟩ :
          ThreadCache).evict_if_needed).snapshot
        = some [(9, ⟨"196", 0, 100, 50, false, none⟩)]
      ∧ ((⟨[(1, ⟨"1", 0, 50, 20, false, none⟩), (2, ⟨"2", 0, 60, 20, false, none⟩)],
          some [(9, ⟨"196", 0, 100, 50, false, none⟩)], 1, 3, 4⟩ :
            ThreadCache).evict_if_needed).known_values.length = 2 - max (1 / 10) 1
      ∧ (⟨"1", 0, 50, 20, false, none⟩ : ThreadInfo).max_iterations_tested
          ≤ (⟨"2", 0, 60, 20, false, none⟩ : ThreadInfo).max_iterations_tested := by
  have h := evict_single_decile_pass
    ⟨[(1, ⟨"1", 0, 50, 20, false, none⟩), (2, ⟨"2", 0, 60, 20, false, none⟩)],
      some [(9, ⟨"196", 0, 100, 50, false, none⟩)], 1, 3, 4⟩ (by decide) (by decide)
  refine ⟨h.1, h.2.1, ?_⟩
  exact h.2.2 (1, ⟨"1", 0, 50, 20, false, none⟩) (by decide) (by decide)
    (2, ⟨"2", 0, 60, 20, false, none⟩) (by decide)

/-! ### C1: add_thread storage and cache-hit conclusion -/

@[simp] theorem orbit_zero (s : Nat) : orbit s 0 = s := rfl

theorem orbit_succ (s j : Nat) : orbit s (j + 1) = stepRA (orbit s j) := rfl

theorem orbit_shift (s : Nat) : ∀ i : Nat, orbit (stepRA s) i = orbit s (i + 1) := by
  intro i
  induction i with
  | zero => rfl
  | succ i ih =>
    rw [orbit_succ, ih]
    rfl

theorem check_fst (c : ThreadCache) (v : Nat) : (c.check v).1 = c.lookupFull v := by
  cases hl : mapLookup c.known_values v with
  | some info => simp [ThreadCache.check, ThreadCache.lookupFull, hl]
  | none =>
    cases hs : c.snapshot with
    | none => simp [ThreadCache.check, ThreadCache.lookupFull, hl, hs]
    | some snap =>
      cases hsl : mapLookup snap v with
      | some info => simp [ThreadCache.check, ThreadCache.lookupFull, hl, hs, hsl]
      | none => simp [ThreadCache.check, ThreadCache.lookupFull, hl, hs, hsl]

theorem check_snd_fields (c : ThreadCache) (v : Nat) :
    ((c.check v).2).known_values = c.known_values ∧ ((c.check v).2).snapshot = c.snapshot := by
  cases hl : mapLookup c.known_values v with
  | some info => simp [ThreadCache.check, hl]
  | none =>
    cases hs : c.snapshot with
    | none => simp [ThreadCache.check, hl, hs]
    | some snap =>
      cases hsl : mapLookup snap v with
      | some info => simp [ThreadCache.check, hl, hs, hsl]
      | none => simp [ThreadCache.check, hl, hs, hsl]

theorem lookupFull_congr (c c' : ThreadCache) (h1 : c'.known_values = c.known_values)
    (h2 : c'.snapshot = c.snapshot) (v : Nat) : c'.lookupFull v = c.lookupFull v := by
  unfold ThreadCache.lookupFull
  rw [h1, h2]

theorem mapInsert_length_le (m : CacheMap) (k : Nat) (v : ThreadInfo) :
    (mapInsert m k v).length ≤ m.length + 1 := by
  induction m with
  | nil => simp [mapInsert]
  | cons kv rest ih =>
    obtain ⟨k0, v0⟩ := kv
    by_cases hk : k0 = k
    · simp [mapInsert, hk]
    · simp only [mapInsert, if_neg hk, List.length_cons]
      omega

theorem addThreadEntries_length_le (info : ThreadInfo) :
    ∀ (l : List Nat) (m : CacheMap) (idx : Nat),
      (addThreadEntries info m l idx).length ≤ m.length + l.length := by
  intro l
  induction l with
  | nil => intro m idx; simp [addThreadEntries]
  | cons p ps ih =>
    intro m idx
    rw [addThreadEntries]
    have h1 := ih (mapInsert m p { info with iterations_from_seed := info.iterations_from_seed + idx }) (idx + 1)
    have h2 := mapInsert_length_le m p { info with iterations_from_seed := info.iterations_from_seed + idx }
    simp only [List.length_cons]
    omega

theorem addThreadEntries_lookup_not_mem (info : ThreadInfo) :
    ∀ (l : List Nat) (m : CacheMap) (idx k : Nat), k ∉ l →
      mapLookup (addThreadEntries info m l idx) k = mapLookup m k := by
  intro l
  induction l with
  | nil => intro m idx k _; rfl
  | cons p ps ih =>
    intro m idx k hk
    rw [addThreadEntries]
    rw [ih _ (idx + 1) k (fun hh => hk (List.mem_cons_of_mem p hh))]
    exact mapLookup_insert_ne m p k _ (fun hh => hk (hh ▸ List.mem_cons_self p ps))

theorem addThreadEntries_lookup_get (info : ThreadInfo) :
    ∀ (l : List Nat) (m : CacheMap) (idx i : Nat) (hi : i < l.length), l.Nodup →
      mapLookup (addThreadEntries info m l idx) (l.get ⟨i, hi⟩)
        = some { info with iterations_from_seed := info.iterations_from_seed + idx + i } := by
  intro l
  induction l with
  | nil => intro m idx i hi; simp at hi
  | cons p ps ih =>
    intro m idx i hi hnd
    cases i with
    | zero =>
      have hg : (p :: ps).get ⟨0, hi⟩ = p := rfl
      rw [hg, addThreadEntries]
      have hp : p ∉ ps := (List.nodup_cons.mp hnd).1
      rw [addThreadEntries_lookup_not_mem info ps _ (idx + 1) p hp]
      have := mapLookup_insert_self m p
        { info with iterations_from_seed := info.iterations_from_seed + idx }
      simpa using this
    | succ i =>
      have hps : i < ps.length := by simpa using hi
      have hg : (p :: ps).get ⟨i + 1, hi⟩ = ps.get ⟨i, hps⟩ := rfl
      rw [hg, addThreadEntries]
      have h := ih (mapInsert m p { info with iterations_from_seed := info.iterations_from_seed + idx })
        (idx + 1) i hps (List.nodup_cons.mp hnd).2
      have harith : info.iterations_from_seed + (idx + 1) + i
          = info.iterations_from_seed + idx + (i + 1) := by omega
      rw [harith] at h
      exact h

/-- The loop of the cache-assisted iteration, run against a cache whose maps
never contain the first `j` orbit elements but do contain the `j`-th: it stops
there and reports the stored totals. -/
theorem cacheLoop_hit (start : Nat) :
    ∀ (j remaining count current : Nat) (path : List Nat) (cache : ThreadCache)
      (t : ThreadInfo),
      j < remaining →
      (∀ i, i < j → cache.lookupFull (orbit current i) = none) →
      (∀ i, 1 ≤ i → i ≤ j → is_palindrome (orbit current i) = false) →
      cache.lookupFull (orbit current j) = some t →
      (lychrelCacheLoop start remaining current count path cache).1 =
        ⟨start, t.reached_palindrome,
          count + j + (if t.reached_palindrome then
              t.palindrome_at_iteration.getD t.max_iterations_tested
            else t.max_iterations_tested),
          none, !t.reached_palindrome⟩ := by
  intro j
  induction j with
  | zero =>
    intro remaining count current path cache t hlt hmiss hpal hhit
    obtain ⟨r, hr⟩ : ∃ r, remaining = r + 1 := ⟨remaining - 1, by omega⟩
    subst hr
    rw [lychrelCacheLoop]
    rcases hcheck : cache.check current with ⟨o, c2⟩
    have ho : o = some t := by
      have h1 := check_fst cache current
      rw [hcheck] at h1
      simp only [] at h1
      rw [h1]
      simpa using hhit
    subst ho
    by_cases hrp : t.reached_palindrome = true <;>
      simp [hrp, IterationResult.mk.injEq]
  | succ j ih =>
    intro remaining count current path cache t hlt hmiss hpal hhit
    obtain ⟨r, hr⟩ : ∃ r, remaining = r + 1 := ⟨remaining - 1, by omega⟩
    subst hr
    rw [lychrelCacheLoop]
    rcases hcheck : cache.check current with ⟨o, c2⟩
    have ho : o = none := by
      have h1 := check_fst cache current
      rw [hcheck] at h1
      simp only [] at h1
      rw [h1]
      simpa using hmiss 0 (by omega)
    subst ho
    have hfields := check_snd_fields cache current
    rw [hcheck] at hfields
    simp only [] at hfields
    have hpal1 : is_palindrome (stepRA current) = false := by
      have := hpal 1 (by omega) (by omega)
      rw [orbit_succ, orbit_zero] at this
      exact this
    simp only [hpal1, Bool.false_eq_true, if_false]
    have h := ih r (count + 1) (stepRA current) (path ++ [stepRA current]) c2 t
      (by omega)
      (by
        intro i hij
        rw [lookupFull_congr cache c2 hfields.1 hfields.2, orbit_shift]
        exact hmiss (i + 1) (by omega))
      (by
        intro i h1i hij
        rw [orbit_shift]
        exact hpal (i + 1) (by omega) (by omega))
      (by
        rw [lookupFull_congr cache c2 hfields.1 hfields.2, orbit_shift]
        exact hhit)
    rw [h]
    have harith : count + 1 + j = count + (j + 1) := by omega
    rw [harith]

/-- Claim C1, amended.  (1) `add_thread` stores an entry for each of the
first `min 100 path.length` path elements `p_i` with
`iterations_from_seed = base + i` (stated here with a distinct-path and
no-eviction proviso).  (2) A later cache-assisted run whose orbit reaches
`p_i` as its `j`-th element — all earlier elements missing the cache —
concludes with `iterations = j + palindrome_at_iteration` (defaulting to
`max_iterations_tested`) when the stored entry has `reached_palindrome`
true, and `iterations = j + max_iterations_tested` otherwise: the stored
total is used as is, never the remaining distance `k - i`, because
`iterations_from_seed` is written but never read by the hit path. -/
theorem add_thread_stores_and_hit_uses_stored_total :
    (∀ (c : ThreadCache) (path : List Nat) (info : ThreadInfo) (i : Nat)
        (hi : i < min 100 path.length),
        path.Nodup →
        c.known_values.length + path.length ≤ c.max_cache_size →
        mapLookup (c.add_thread path info).known_values
            (path.get ⟨i, Nat.lt_of_lt_of_le hi (Nat.min_le_right 100 path.length)⟩)
          = some { info with iterations_from_seed := info.iterations_from_seed + i })
      ∧ (∀ (cache : ThreadCache) (start maxIter j : Nat) (t : ThreadInfo),
          is_palindrome start = false →
          j < maxIter →
          (∀ i, i < j → cache.lookupFull (orbit start i) = none) →
          (∀ i, 1 ≤ i → i ≤ j → is_palindrome (orbit start i) = false) →
          cache.lookupFull (orbit start j) = some t →
          ((lychrel_iteration_with_cache start maxIter cache).1).iterations
              = j + (if t.reached_palindrome then
                  t.palindrome_at_iteration.getD t.max_iterations_tested
                else t.max_iterations_tested)
            ∧ ((lychrel_iteration_with_cache start maxIter cache).1).is_palindrome
                = t.reached_palindrome
            ∧ ((lychrel_iteration_with_cache start maxIter cache).1).final_number = none) := by
  constructor
  · intro c path info i hi hnd hsize
    unfold ThreadCache.add_thread
    have hlen : (addThreadEntries info c.known_values
        (path.take (min 100 path.length)) 0).length ≤ c.max_cache_size := by
      have h1 := addThreadEntries_length_le info (path.take (min 100 path.length))
        c.known_values 0
      have h2 : (path.take (min 100 path.length)).length ≤ path.length := by
        simp [List.length_take]
      omega
    rw [evict_of_le _ (by simpa using hlen)]
    have htk : i < (path.take (min 100 path.length)).length := by
      simp [List.length_take]
      omega
    have hget : (path.take (min 100 path.length)).get ⟨i, htk⟩
        = path.get ⟨i, Nat.lt_of_lt_of_le hi (Nat.min_le_right 100 path.length)⟩ := by
      simp [List.get_eq_getElem, List.getElem_take]
    rw [← hget]
    have := addThreadEntries_lookup_get info (path.take (min 100 path.length))
      c.known_values 0 i htk (hnd.sublist (List.take_sublist _ _))
    simpa using this
  · intro cache start maxIter j t hps hj hmiss hpal hhit
    unfold lychrel_iteration_with_cache
    rw [if_neg (by simp [hps])]
    rw [cacheLoop_hit start j maxIter 0 start [] cache t hj hmiss hpal hhit]
    simp

/-- The cache produced by admitting the orbit path [196, 887] (so `p_0 = 196`,
`p_1 = 887`, `k = 1`, base offset 0) for a thread that reached its palindrome
after one step. -/
def cacheA : ThreadCache :=
  (ThreadCache.new 1000).add_thread [196, 887] ⟨"196", 0, 1, 3, true, some 1⟩

/-- Counterexample to C1 as stated: the entry for `p_1 = 887` is stored with
`iterations_from_seed = 0 + 1`, and a later run started at 887 visits
`p_1` as its 0-th element (`j = 0`, `i = 1`, `k = 1`) with the stored entry
having `reached_palindrome = true` — yet it concludes with
`iterations = 1 ≠ j + (k - i) = 0`: the hit path adds the stored
`palindrome_at_iteration` and ignores `iterations_from_seed`. -/
theorem cache_hit_ignores_position :
    mapLookup cacheA.known_values 887 = some ⟨"196", 1, 1, 3, true, some 1⟩
      ∧ ((lychrel_iteration_with_cache 887 10 cacheA).1).iterations ≠ 0 + (1 - 1) := by
  refine ⟨by decide, by decide⟩

/-- Witness for the amended C1 on the same concrete thread: the stored entry
for `p_1 = 887` carries `iterations_from_seed = 1`, and the later run from
887 concludes with `iterations = 0 + palindrome_at_iteration = 1`. -/
theorem add_thread_stores_and_hit_uses_stored_total_witness :
    mapLookup cacheA.known_values 887 = some ⟨"196", 0 + 1, 1, 3, true, some 1⟩
      ∧ ((lychrel_iteration_with_cache 887 10 cacheA).1).iterations
          = 0 + (if (true : Bool) then (some 1).getD 1 else 1) := by
  constructor
  · exact add_thread_stores_and_hit_uses_stored_total.1 (ThreadCache.new 1000)
      [196, 887] ⟨"196", 0, 1, 3, true, some 1⟩ 1 (by decide) (by decide) (by decide)
  · exact (add_thread_stores_and_hit_uses_stored_total.2 cacheA 887 10 0
      ⟨"196", 1, 1, 3, true, some 1⟩ (by decide) (by decide)
      (fun i hi => absurd hi (Nat.not_lt_zero i))
      (fun i h1 h0 => absurd (Nat.le_trans h1 h0) (by decide))
      (by decide)).1

/-!
Concrete validation of the embedding against the repository's unit tests and
doc tests (src/src/lychrel.rs, src/src/seed_generator.rs tests; spec §8
scenarios 1-4).
-/
example : toDigits 123 = [3, 2, 1] := by decide
example : reverse_number 100 = 1 := by decide
example : is_palindrome 121 = true := by decide
example : (lychrel_iteration 89 100).iterations = 24 := by decide
example : (lychrel_iteration 89 100).final_number = some 8813200023188 := by decide
example : (lychrel_iteration 196 100).iterations = 100 := by decide
example : (lychrel_iteration 121 100).iterations = 0 := by decide
example : (lychrel_iteration 10 5) = ⟨10, true, 1, some 11, false⟩ := by decide
example : ((lychrel_iteration_with_cache 89 100 (ThreadCache.new 1000)).1).iterations = 24 := by
  decide
example :
    ((lychrel_iteration_with_cache 887 10
        ((ThreadCache.new 1000).add_thread [196, 887] ⟨"196", 0, 1, 3, true, some 1⟩)).1).iterations
      = 1 := by decide
example : (SeedGenerator.next_seq ⟨100, 1000, 3, 0, 0⟩).map Prod.fst = some 101 := by decide
example : is_potential_seed 54321 = false := by decide
example : is_potential_seed 12345 = true := by decide
example : parseDecimal "196" = some 196 := by decide
example : parseDecimal "abc" = none := by decide
